import Mathlib

/-!
# Option-portfolio variance calculator

A shallow embedding of `main.cpp` / `2.cpp` (class `VarianceCalculator`, the free
functions `normcdf` and `blackScholesDelta`).

Numbers: C++ `double` is idealised as a linearly ordered field `α` (rounding,
infinities and NaN are not modelled).  Statements that say which expression the program
evaluates, which calls throw and how the object changes carry over to the program; order
relations and equalities between computed values that are proved here from the field laws
are facts of exact arithmetic and are marked as such, since rounding, overflow and NaN can
break them in `double`.  The functions of `<cmath>` that the program
calls (`exp`, `log`, `sqrt`, `pow`) are not part of the repository and are taken as
a parameter `Libm α`; `realLibm` instantiates them with the real-analytic functions.

Exceptions: a C++ function that may throw returns `Except Error _`; a member
function that may throw after having mutated `*this` returns the pair of its
outcome and of the object as the caller finds it afterwards.
-/

namespace DeltaModel

/-- The functions of `<cmath>` used by the program. -/
structure Libm (α : Type) where
  exp : α → α
  log : α → α
  sqrt : α → α
  pow : α → α → α

/-- The real-analytic reading of `<cmath>`. -/
noncomputable def realLibm : Libm ℝ where
  exp := Real.exp
  log := Real.log
  sqrt := Real.sqrt
  pow := fun x y => x ^ y

/-- The `enum class Type { Call, Put }` of class `Option`. -/
inductive OptionType where
  | Call
  | Put
  deriving DecidableEq, Repr

/-- The `class Option` of main.cpp: type, strike, timeToExpiry (years), position. -/
structure Option (α : Type) where
  type : OptionType
  strike : α
  timeToExpiry : α
  position : α
  deriving DecidableEq, Repr

/-- The only exception the program throws:
`std::invalid_argument("Invalid time to expiry or strike price")`. -/
inductive Error where
  | invalid_argument
  deriving DecidableEq, Repr

section Numeric

variable {α : Type} [LinearOrderedField α]

/-- The macro `#define M_PI 3.14159265358979323846`. -/
def M_PI : α := 3.14159265358979323846

/-- Function `double normcdf(double value)` of main.cpp (the literals `0.0` and `1.0` are
written `0` and `1`).  The recursive call on `-x` is made only when `x < 0`, so the
recursion has depth at most one. -/
def normcdf (M : Libm α) (value : α) : α :=
  let x := value
  let k := 1 / (1 + 0.2316419 * x)
  let k_sum := k * (0.319381530 + k * (-0.356563782 + k * (1.781477937 + k * (-1.821255978 + 1.330274429 * k))))
  if x ≥ 0 then
    1 - (1 / (M.pow (2 * M_PI) 0.5)) * M.exp (-0.5 * x * x) * k_sum
  else
    1 - normcdf M (-x)
termination_by (if value ≥ 0 then 0 else 1)
decreasing_by
  rename_i h
  have h2 : -value ≥ 0 := by linarith [lt_of_not_ge h]
  simp [h, h2]

/-- Function `normcdf` as written in 2.cpp: the same body with `sqrt(2 * M_PI)` in
place of `pow(2 * M_PI, 0.5)`. -/
def normcdf_2 (M : Libm α) (value : α) : α :=
  let x := value
  let k := 1 / (1 + 0.2316419 * x)
  let k_sum := k * (0.319381530 + k * (-0.356563782 + k * (1.781477937 + k * (-1.821255978 + 1.330274429 * k))))
  if x ≥ 0 then
    1 - (1 / (M.sqrt (2 * M_PI))) * M.exp (-0.5 * x * x) * k_sum
  else
    1 - normcdf_2 M (-x)
termination_by (if value ≥ 0 then 0 else 1)
decreasing_by
  rename_i h
  have h2 : -value ≥ 0 := by linarith [lt_of_not_ge h]
  simp [h, h2]

/-- Function `blackScholesDelta(option, underlyingPrice, volatility, riskFreeRate)`:
the guard throws, otherwise the discounted delta of a call or of a put. -/
def blackScholesDelta (M : Libm α) (option : Option α)
    (underlyingPrice volatility riskFreeRate : α) : Except Error α :=
  if option.timeToExpiry ≤ 0 ∨ option.strike ≤ 0 then
    Except.error Error.invalid_argument
  else
    let d1 := (M.log (underlyingPrice / option.strike)
        + (riskFreeRate + 0.5 * M.pow volatility 2) * option.timeToExpiry)
      / (volatility * M.sqrt option.timeToExpiry)
    if option.type = OptionType.Call then
      Except.ok (M.exp (-riskFreeRate * option.timeToExpiry) * normcdf M d1)
    else
      Except.ok (-M.exp (-riskFreeRate * option.timeToExpiry) * normcdf M (-d1))

/-- Member `const double underlyingValue = 5000`. -/
def underlyingValue : α := 5000

/-- Member `const double underlyingStdDev = 0.2`. -/
def underlyingStdDev : α := 0.2

/-- Member `const double annualReturn = 0.05`. -/
def annualReturn : α := 0.05

/-- The mutable members of `class VarianceCalculator`. -/
structure VarianceCalculator (α : Type) where
  portfolio : List (Option α)
  portfolioVariance : α

/-- The `struct VarianceInfo` returned by `getVarianceIfPurchased`. -/
structure VarianceInfo (α : Type) where
  currentVariance : α
  newVariance : α

/-- Constructor `VarianceCalculator() : portfolioVariance(0) {}`. -/
def VarianceCalculator.new : VarianceCalculator α :=
  { portfolio := [], portfolioVariance := 0 }

/-- Method `calculateOptionVariance`: the exception of `blackScholesDelta` propagates. -/
def calculateOptionVariance (M : Libm α) (option : Option α) : Except Error α :=
  match blackScholesDelta M option underlyingValue underlyingStdDev annualReturn with
  | Except.error e => Except.error e
  | Except.ok delta =>
    let optionVariance := M.pow delta 2 * M.pow underlyingStdDev 2
    Except.ok optionVariance

/-- The range-for loop of `calculatePortfolioVariance`, from the running
`totalVariance`; an exception thrown for an element leaves the loop. -/
def calculatePortfolioVarianceLoop (M : Libm α) :
    List (Option α) → α → Except Error α
  | [], totalVariance => Except.ok totalVariance
  | option :: rest, totalVariance =>
    match calculateOptionVariance M option with
    | Except.error e => Except.error e
    | Except.ok optionVariance =>
      calculatePortfolioVarianceLoop M rest
        (totalVariance + M.pow option.position 2 * optionVariance)

/-- Method `calculatePortfolioVariance` (it reads the member `portfolio`). -/
def calculatePortfolioVariance (M : Libm α) (portfolio : List (Option α)) :
    Except Error α :=
  let totalVariance := 0
  calculatePortfolioVarianceLoop M portfolio totalVariance

/-- Method `addOption`: `push_back`, then the assignment of the recomputed variance.
When `calculatePortfolioVariance` throws, the assignment is not executed and the
exception leaves `addOption` with the element already pushed. -/
def addOption (M : Libm α) (self : VarianceCalculator α) (option : Option α) :
    Except Error Unit × VarianceCalculator α :=
  let self1 := { self with portfolio := self.portfolio ++ [option] }
  match calculatePortfolioVariance M self1.portfolio with
  | Except.error e => (Except.error e, self1)
  | Except.ok v => (Except.ok (), { self1 with portfolioVariance := v })

/-- Method `resetPortfolio`. -/
def resetPortfolio (self : VarianceCalculator α) : VarianceCalculator α :=
  { self with portfolio := [], portfolioVariance := 0 }

/-- Method `getVarianceIfPurchased`: `push_back`, recomputation, `pop_back`, `return`.
When `calculatePortfolioVariance` throws, `pop_back` is not executed. -/
def getVarianceIfPurchased (M : Libm α) (self : VarianceCalculator α) (option : Option α) :
    Except Error (VarianceInfo α) × VarianceCalculator α :=
  let currentVariance := self.portfolioVariance
  let self1 := { self with portfolio := self.portfolio ++ [option] }
  match calculatePortfolioVariance M self1.portfolio with
  | Except.error e => (Except.error e, self1)
  | Except.ok newVariance =>
    let self2 := { self1 with portfolio := self1.portfolio.dropLast }
    (Except.ok { currentVariance := currentVariance, newVariance := newVariance }, self2)

/-- One call of a public member function by a client of the class. -/
inductive Call (α : Type) where
  | addOption (option : Option α)
  | resetPortfolio
  | getVarianceIfPurchased (option : Option α)

/-- The object after one call, whether the call returned or threw (a client that
catches the exception goes on with the object as the call left it). -/
def step (M : Libm α) (self : VarianceCalculator α) : Call α → VarianceCalculator α
  | Call.addOption option => (addOption M self option).2
  | Call.resetPortfolio => resetPortfolio self
  | Call.getVarianceIfPurchased option => (getVarianceIfPurchased M self option).2

/-- The object after a sequence of calls, from left to right. -/
def run (M : Libm α) (self : VarianceCalculator α) (calls : List (Call α)) :
    VarianceCalculator α :=
  calls.foldl (step M) self

/-- The states a client can observe: those reached from a freshly constructed
object by a sequence of calls of the public member functions. -/
def Reachable (M : Libm α) (s : VarianceCalculator α) : Prop :=
  ∃ calls : List (Call α), run M VarianceCalculator.new calls = s

/-- The successive `addOption` calls of `main`: an exception ends the sequence. -/
def addOptions (M : Libm α) (self : VarianceCalculator α) :
    List (Option α) → Except Error Unit × VarianceCalculator α
  | [] => (Except.ok (), self)
  | option :: rest =>
    match addOption M self option with
    | (Except.error e, self1) => (Except.error e, self1)
    | (Except.ok _, self1) => addOptions M self1 rest

/-- The guard of `blackScholesDelta` does not fire on this option. -/
def Option.valid (option : Option α) : Prop :=
  0 < option.strike ∧ 0 < option.timeToExpiry

instance (option : Option α) : Decidable option.valid := by
  unfold Option.valid
  infer_instance

/-- The delta `blackScholesDelta(option, underlyingValue, underlyingStdDev,
annualReturn)` of an option, read as `0` when the call throws. -/
def delta (M : Libm α) (option : Option α) : α :=
  match blackScholesDelta M option underlyingValue underlyingStdDev annualReturn with
  | Except.ok d => d
  | Except.error _ => 0

/-- The polynomial `k_sum` of `normcdf`, as a function of `k`. -/
def k_sum (k : α) : α :=
  k * (0.319381530 + k * (-0.356563782 + k * (1.781477937 + k * (-1.821255978 + 1.330274429 * k))))

/-- The term `normcdf` subtracts from `1.0` in its branch `x >= 0.0`. -/
def upperTail (M : Libm α) (x : α) : α :=
  (1 / (M.pow (2 * M_PI) 0.5)) * M.exp (-0.5 * x * x) * k_sum (1 / (1 + 0.2316419 * x))

end Numeric

/-- An option the guard of `blackScholesDelta` rejects: strike `-100`. -/
def badOption : Option ℝ :=
  { type := OptionType.Call, strike := -100, timeToExpiry := 1, position := 1 }

/-- The first option of `main`: `Option(Option::Type::Call, 100, 1.0, 1)`. -/
def mainCall : Option ℝ :=
  { type := OptionType.Call, strike := 100, timeToExpiry := 1, position := 1 }

/-- The second option of `main`: `Option(Option::Type::Put, 100, 1.0, -1)`. -/
def mainPut : Option ℝ :=
  { type := OptionType.Put, strike := 100, timeToExpiry := 1, position := -1 }

/-- The candidate of `main`: `Option(Option::Type::Call, 120, 1.0, 1)`. -/
def mainCandidate : Option ℝ :=
  { type := OptionType.Call, strike := 120, timeToExpiry := 1, position := 1 }

end DeltaModel

/-!
# The price-difference portfolio of `3.cpp`

A shallow embedding of `struct Option` and `class OptionsPortfolio` of `3.cpp`.  The `int`
members are integers (they are only compared with `0` and converted to `double`), the
`double` members are elements of a linearly ordered field, and the messages written to
`std::cerr` are not modelled.
-/

namespace PriceModel

/-- The `struct Option` of 3.cpp. -/
structure Option (α : Type) where
  type : String
  position : String
  strikePrice : Int
  underlyingPrice : α
  daysToExpiry : Int
  deriving DecidableEq, Repr

/-- The data members of `class OptionsPortfolio`. -/
structure OptionsPortfolio (α : Type) where
  optionsList : List (Option α)
  portfolioVariance : α

section Portfolio

variable {α : Type} [LinearOrderedField α]

/-- Constructor `OptionsPortfolio() : portfolioVariance(0.0) {}`. -/
def OptionsPortfolio.new : OptionsPortfolio α :=
  { optionsList := [], portfolioVariance := 0 }

/-- Method `calculateIndividualVariance`: the signed price difference. -/
def calculateIndividualVariance (option : Option α) : α :=
  let priceDifference : α := option.underlyingPrice - (option.strikePrice : α)
  let individualVariance : α := 0
  if option.type = "call" then
    (if option.position = "long" then 1 else -1) * priceDifference
  else if option.type = "put" then
    (if option.position = "long" then -1 else 1) * priceDifference
  else
    individualVariance

/-- Method `addOption` of `OptionsPortfolio`: three validation checks that return without
touching the object, then the incremental update and `push_back`. -/
def addOption (self : OptionsPortfolio α) (option : Option α) : OptionsPortfolio α :=
  if option.strikePrice ≤ 0 ∨ option.underlyingPrice ≤ 0 ∨ option.daysToExpiry ≤ 0 then
    self
  else if option.type ≠ "call" ∧ option.type ≠ "put" then
    self
  else if option.position ≠ "long" ∧ option.position ≠ "short" then
    self
  else
    let individualVariance := calculateIndividualVariance option
    { optionsList := self.optionsList ++ [option],
      portfolioVariance := self.portfolioVariance + individualVariance * individualVariance }

/-- Method `calculateVariance`. -/
def calculateVariance (self : OptionsPortfolio α) : α :=
  self.portfolioVariance

/-- Method `resetPortfolio` of `OptionsPortfolio`. -/
def resetPortfolio (_self : OptionsPortfolio α) : OptionsPortfolio α :=
  { optionsList := [], portfolioVariance := 0 }

/-- Method `getOptionsList`. -/
def getOptionsList (self : OptionsPortfolio α) : List (Option α) :=
  self.optionsList

/-- Successive `addOption` calls, as in the test functions. -/
def addOptions (self : OptionsPortfolio α) (options : List (Option α)) : OptionsPortfolio α :=
  options.foldl addOption self

/-- The acceptance condition in positive form: both prices and the days to expiry are
positive, the type is `call` or `put`, the position is `long` or `short`. -/
def Option.accepted (option : Option α) : Prop :=
  0 < option.strikePrice ∧ 0 < option.underlyingPrice ∧ 0 < option.daysToExpiry
    ∧ (option.type = "call" ∨ option.type = "put")
    ∧ (option.position = "long" ∨ option.position = "short")

instance (option : Option α) : Decidable option.accepted := by
  unfold Option.accepted
  infer_instance

end Portfolio

/-- The option `callOption` of `testAddingOptions`: call, long, 5000, 5100, 30. -/
def callOption : Option ℚ :=
  { type := "call", position := "long", strikePrice := 5000, underlyingPrice := 5100,
    daysToExpiry := 30 }

/-- The option `putOption` of `testAddingOptions`: put, short, 5000, 4900, 30. -/
def putOption : Option ℚ :=
  { type := "put", position := "short", strikePrice := 5000, underlyingPrice := 4900,
    daysToExpiry := 30 }

/-- The option `invalidOption` of `testEdgeCases`: call, long, -100, 5100, 30. -/
def invalidOption : Option ℚ :=
  { type := "call", position := "long", strikePrice := -100, underlyingPrice := 5100,
    daysToExpiry := 30 }

end PriceModel

namespace DeltaModel

/-! ## The guard and the aggregation loop -/

section Generic

variable {α : Type} [LinearOrderedField α]

theorem not_valid_iff (o : Option α) : ¬ o.valid ↔ o.timeToExpiry ≤ 0 ∨ o.strike ≤ 0 := by
  unfold Option.valid
  constructor
  · intro h
    by_contra hc
    push_neg at hc
    exact h ⟨hc.2, hc.1⟩
  · rintro (h | h) ⟨h1, h2⟩
    · exact absurd h2 (not_lt.mpr h)
    · exact absurd h1 (not_lt.mpr h)

theorem blackScholesDelta_of_not_valid (M : Libm α) (o : Option α) (S v r : α)
    (h : ¬ o.valid) : blackScholesDelta M o S v r = Except.error Error.invalid_argument := by
  unfold blackScholesDelta
  rw [if_pos ((not_valid_iff o).mp h)]

theorem blackScholesDelta_of_valid (M : Libm α) (o : Option α) (h : o.valid) :
    blackScholesDelta M o underlyingValue underlyingStdDev annualReturn
      = Except.ok (delta M o) := by
  have hg : ¬ (o.timeToExpiry ≤ 0 ∨ o.strike ≤ 0) := fun hc => (not_valid_iff o).mpr hc h
  unfold delta blackScholesDelta
  rw [if_neg hg]
  by_cases ht : o.type = OptionType.Call <;> simp [ht]

theorem calculateOptionVariance_of_not_valid (M : Libm α) (o : Option α) (h : ¬ o.valid) :
    calculateOptionVariance M o = Except.error Error.invalid_argument := by
  unfold calculateOptionVariance
  rw [blackScholesDelta_of_not_valid M o _ _ _ h]

theorem calculateOptionVariance_of_valid (M : Libm α) (o : Option α) (h : o.valid) :
    calculateOptionVariance M o
      = Except.ok (M.pow (delta M o) 2 * M.pow underlyingStdDev 2) := by
  unfold calculateOptionVariance
  rw [blackScholesDelta_of_valid M o h]

theorem loop_of_all_valid (M : Libm α) (l : List (Option α)) (acc : α)
    (h : ∀ o ∈ l, o.valid) :
    calculatePortfolioVarianceLoop M l acc
      = Except.ok (acc + (l.map fun o =>
          M.pow o.position 2 * (M.pow (delta M o) 2 * M.pow underlyingStdDev 2)).sum) := by
  induction l generalizing acc with
  | nil => simp [calculatePortfolioVarianceLoop]
  | cons o rest ih =>
    have ho : o.valid := h o (List.mem_cons_self o rest)
    have hrest : ∀ p ∈ rest, p.valid := fun p hp => h p (List.mem_cons_of_mem o hp)
    rw [calculatePortfolioVarianceLoop, calculateOptionVariance_of_valid M o ho]
    simp only [ih _ hrest, List.map_cons, List.sum_cons, add_assoc]

theorem loop_of_some_not_valid (M : Libm α) (l : List (Option α)) (acc : α)
    (h : ∃ o ∈ l, ¬ o.valid) :
    calculatePortfolioVarianceLoop M l acc = Except.error Error.invalid_argument := by
  induction l generalizing acc with
  | nil => simp at h
  | cons o rest ih =>
    rw [calculatePortfolioVarianceLoop]
    by_cases ho : o.valid
    · rw [calculateOptionVariance_of_valid M o ho]
      obtain ⟨p, hp, hpv⟩ := h
      rcases List.mem_cons.mp hp with rfl | hp
      · exact absurd ho hpv
      · exact ih _ ⟨p, hp, hpv⟩
    · rw [calculateOptionVariance_of_not_valid M o ho]

theorem calculatePortfolioVariance_of_all_valid (M : Libm α) (l : List (Option α))
    (h : ∀ o ∈ l, o.valid) :
    calculatePortfolioVariance M l
      = Except.ok ((l.map fun o =>
          M.pow o.position 2 * (M.pow (delta M o) 2 * M.pow underlyingStdDev 2)).sum) := by
  unfold calculatePortfolioVariance
  rw [loop_of_all_valid M l 0 h, zero_add]

theorem calculatePortfolioVariance_of_some_not_valid (M : Libm α) (l : List (Option α))
    (h : ∃ o ∈ l, ¬ o.valid) :
    calculatePortfolioVariance M l = Except.error Error.invalid_argument := by
  unfold calculatePortfolioVariance
  exact loop_of_some_not_valid M l 0 h

theorem addOption_of_not_valid (M : Libm α) (self : VarianceCalculator α) (o : Option α)
    (h : ¬ o.valid) :
    addOption M self o = (Except.error Error.invalid_argument,
      { portfolio := self.portfolio ++ [o], portfolioVariance := self.portfolioVariance }) := by
  have hb : ∃ p ∈ self.portfolio ++ [o], ¬ p.valid := ⟨o, by simp, h⟩
  unfold addOption
  simp only [calculatePortfolioVariance_of_some_not_valid M _ hb]

theorem getVarianceIfPurchased_of_not_valid (M : Libm α) (self : VarianceCalculator α)
    (o : Option α) (h : ¬ o.valid) :
    getVarianceIfPurchased M self o = (Except.error Error.invalid_argument,
      { portfolio := self.portfolio ++ [o], portfolioVariance := self.portfolioVariance }) := by
  have hb : ∃ p ∈ self.portfolio ++ [o], ¬ p.valid := ⟨o, by simp, h⟩
  unfold getVarianceIfPurchased
  simp only [calculatePortfolioVariance_of_some_not_valid M _ hb]

theorem addOption_of_all_valid (M : Libm α) (self : VarianceCalculator α) (o : Option α)
    (hs : ∀ p ∈ self.portfolio, p.valid) (ho : o.valid) :
    addOption M self o = (Except.ok (),
      { portfolio := self.portfolio ++ [o],
        portfolioVariance := ((self.portfolio ++ [o]).map fun o =>
          M.pow o.position 2 * (M.pow (delta M o) 2 * M.pow underlyingStdDev 2)).sum }) := by
  have hall : ∀ p ∈ self.portfolio ++ [o], p.valid := by
    intro p hp
    rcases List.mem_append.mp hp with hp | hp
    · exact hs p hp
    · rw [List.mem_singleton.mp hp]; exact ho
  unfold addOption
  simp only [calculatePortfolioVariance_of_all_valid M _ hall]

theorem getVarianceIfPurchased_of_all_valid (M : Libm α) (self : VarianceCalculator α)
    (o : Option α) (hs : ∀ p ∈ self.portfolio, p.valid) (ho : o.valid) :
    ∃ newVariance, calculatePortfolioVariance M (self.portfolio ++ [o]) = Except.ok newVariance
      ∧ getVarianceIfPurchased M self o
          = (Except.ok { currentVariance := self.portfolioVariance, newVariance := newVariance },
             self) := by
  have hall : ∀ p ∈ self.portfolio ++ [o], p.valid := by
    intro p hp
    rcases List.mem_append.mp hp with hp | hp
    · exact hs p hp
    · rw [List.mem_singleton.mp hp]; exact ho
  refine ⟨_, calculatePortfolioVariance_of_all_valid M _ hall, ?_⟩
  unfold getVarianceIfPurchased
  simp only [calculatePortfolioVariance_of_all_valid M _ hall, List.dropLast_concat]

theorem addOptions_of_all_valid (M : Libm α) (l : List (Option α)) (self : VarianceCalculator α)
    (hs : ∀ p ∈ self.portfolio, p.valid) (hl : ∀ o ∈ l, o.valid) (hne : l ≠ []) :
    addOptions M self l = (Except.ok (),
      { portfolio := self.portfolio ++ l,
        portfolioVariance := ((self.portfolio ++ l).map fun o =>
          M.pow o.position 2 * (M.pow (delta M o) 2 * M.pow underlyingStdDev 2)).sum }) := by
  induction l generalizing self with
  | nil => exact absurd rfl hne
  | cons o rest ih =>
    have ho : o.valid := hl o (List.mem_cons_self o rest)
    have hrest : ∀ p ∈ rest, p.valid := fun p hp => hl p (List.mem_cons_of_mem o hp)
    rw [addOptions, addOption_of_all_valid M self o hs ho]
    by_cases hr : rest = []
    · subst hr
      simp [addOptions]
    · have hs1 : ∀ p ∈ self.portfolio ++ [o], p.valid := by
        intro p hp
        rcases List.mem_append.mp hp with hp | hp
        · exact hs p hp
        · rw [List.mem_singleton.mp hp]; exact ho
      have := ih { portfolio := self.portfolio ++ [o],
                   portfolioVariance := ((self.portfolio ++ [o]).map fun o =>
                     M.pow o.position 2 * (M.pow (delta M o) 2 * M.pow underlyingStdDev 2)).sum }
        hs1 hrest hr
      simpa using this

theorem addOption_of_some_not_valid (M : Libm α) (self : VarianceCalculator α) (o : Option α)
    (h : ∃ p ∈ self.portfolio ++ [o], ¬ p.valid) :
    addOption M self o = (Except.error Error.invalid_argument,
      { portfolio := self.portfolio ++ [o], portfolioVariance := self.portfolioVariance }) := by
  unfold addOption
  simp only [calculatePortfolioVariance_of_some_not_valid M _ h]

theorem getVarianceIfPurchased_of_some_not_valid (M : Libm α) (self : VarianceCalculator α)
    (o : Option α) (h : ∃ p ∈ self.portfolio ++ [o], ¬ p.valid) :
    getVarianceIfPurchased M self o = (Except.error Error.invalid_argument,
      { portfolio := self.portfolio ++ [o], portfolioVariance := self.portfolioVariance }) := by
  unfold getVarianceIfPurchased
  simp only [calculatePortfolioVariance_of_some_not_valid M _ h]

theorem takeWhile_valid_concat (l : List (Option α)) (o : Option α)
    (h : ∃ p ∈ l ++ [o], ¬ p.valid) :
    (l ++ [o]).takeWhile (fun p => decide p.valid) = l.takeWhile (fun p => decide p.valid) := by
  induction l with
  | nil =>
    obtain ⟨p, hp, hpv⟩ := h
    have hpo : p = o := by simpa using hp
    subst hpo
    simp [List.takeWhile, hpv]
  | cons a rest ih =>
    by_cases ha : a.valid
    · obtain ⟨p, hp, hpv⟩ := h
      have hp1 : p = a ∨ p ∈ rest ++ [o] := by simpa using hp
      rcases hp1 with rfl | hp1
      · exact absurd ha hpv
      · simp only [List.cons_append, List.takeWhile_cons, ha, decide_True, if_true]
        rw [ih ⟨p, hp1, hpv⟩]
    · simp [List.takeWhile_cons, ha]

theorem all_valid_or_some_not_valid (l : List (Option α)) :
    (∀ p ∈ l, p.valid) ∨ ∃ p ∈ l, ¬ p.valid := by
  by_cases h : ∀ p ∈ l, p.valid
  · exact Or.inl h
  · push_neg at h
    exact Or.inr h

/-- What the cache holds in general: the aggregate of the stored options that precede the
first stored option the guard rejects. -/
theorem step_preserves_cache (M : Libm α) (s : VarianceCalculator α) (c : Call α)
    (h : s.portfolioVariance
      = ((s.portfolio.takeWhile fun p => decide p.valid).map fun o =>
          M.pow o.position 2 * (M.pow (delta M o) 2 * M.pow underlyingStdDev 2)).sum) :
    (step M s c).portfolioVariance
      = (((step M s c).portfolio.takeWhile fun p => decide p.valid).map fun o =>
          M.pow o.position 2 * (M.pow (delta M o) 2 * M.pow underlyingStdDev 2)).sum := by
  cases c with
  | resetPortfolio => simp [step, resetPortfolio]
  | addOption o =>
    rcases all_valid_or_some_not_valid (s.portfolio ++ [o]) with hv | hv
    · have hs : ∀ p ∈ s.portfolio, p.valid := fun p hp => hv p (List.mem_append_left _ hp)
      have ho : o.valid := hv o (by simp)
      have htw : (s.portfolio ++ [o]).takeWhile (fun p => decide p.valid) = s.portfolio ++ [o] :=
        List.takeWhile_eq_self_iff.mpr (fun p hp => decide_eq_true (hv p hp))
      simp only [step, addOption_of_all_valid M s o hs ho, htw]
    · simp only [step, addOption_of_some_not_valid M s o hv, takeWhile_valid_concat _ _ hv]
      exact h
  | getVarianceIfPurchased o =>
    rcases all_valid_or_some_not_valid (s.portfolio ++ [o]) with hv | hv
    · have hs : ∀ p ∈ s.portfolio, p.valid := fun p hp => hv p (List.mem_append_left _ hp)
      have ho : o.valid := hv o (by simp)
      obtain ⟨nv, -, h2⟩ := getVarianceIfPurchased_of_all_valid M s o hs ho
      simp only [step, h2]
      exact h
    · simp only [step, getVarianceIfPurchased_of_some_not_valid M s o hv,
        takeWhile_valid_concat _ _ hv]
      exact h

theorem run_preserves_cache (M : Libm α) (calls : List (Call α)) (s : VarianceCalculator α)
    (h : s.portfolioVariance
      = ((s.portfolio.takeWhile fun p => decide p.valid).map fun o =>
          M.pow o.position 2 * (M.pow (delta M o) 2 * M.pow underlyingStdDev 2)).sum) :
    (run M s calls).portfolioVariance
      = (((run M s calls).portfolio.takeWhile fun p => decide p.valid).map fun o =>
          M.pow o.position 2 * (M.pow (delta M o) 2 * M.pow underlyingStdDev 2)).sum := by
  induction calls generalizing s with
  | nil => exact h
  | cons c rest ih => exact ih (step M s c) (step_preserves_cache M s c h)

theorem reachable_cache (M : Libm α) (s : VarianceCalculator α) (h : Reachable M s) :
    s.portfolioVariance
      = ((s.portfolio.takeWhile fun p => decide p.valid).map fun o =>
          M.pow o.position 2 * (M.pow (delta M o) 2 * M.pow underlyingStdDev 2)).sum := by
  obtain ⟨calls, rfl⟩ := h
  exact run_preserves_cache M calls VarianceCalculator.new (by simp [VarianceCalculator.new])

/-- In a reachable state that stores no rejected option, the cache is the value of a
from-scratch recomputation. -/
theorem reachable_cache_of_all_valid (M : Libm α) (s : VarianceCalculator α)
    (h : Reachable M s) (hv : ∀ p ∈ s.portfolio, p.valid) :
    calculatePortfolioVariance M s.portfolio = Except.ok s.portfolioVariance := by
  have htw : s.portfolio.takeWhile (fun p => decide p.valid) = s.portfolio :=
    List.takeWhile_eq_self_iff.mpr (fun p hp => decide_eq_true (hv p hp))
  rw [calculatePortfolioVariance_of_all_valid M _ hv, reachable_cache M s h, htw]

end Generic

/-! ## The calculator over the reals -/

section Engine

theorem badOption_not_valid : ¬ badOption.valid := by
  unfold Option.valid badOption
  norm_num

theorem realLibm_pow_two (x : ℝ) : realLibm.pow x 2 = x ^ 2 := by
  show x ^ (2 : ℝ) = x ^ 2
  exact Real.rpow_two x

theorem reachable_after_failed_addOption :
    Reachable realLibm
      ({ portfolio := [badOption], portfolioVariance := 0 } : VarianceCalculator ℝ) := by
  refine ⟨[Call.addOption badOption], ?_⟩
  simp [run, step, addOption_of_not_valid realLibm _ _ badOption_not_valid,
    VarianceCalculator.new]

/-- C1, on the code: `addOption` with strike `-100` on a freshly constructed calculator
throws `invalid_argument` and keeps `portfolioVariance = 0`, but the rejected option stays in
`portfolio`, so the sequence is not the one before the call. -/
theorem addOption_invalid_keeps_pushed_option :
    addOption realLibm VarianceCalculator.new badOption
        = (Except.error Error.invalid_argument,
           { portfolio := [badOption], portfolioVariance := 0 })
      ∧ (addOption realLibm VarianceCalculator.new badOption).2.portfolio
          ≠ (VarianceCalculator.new : VarianceCalculator ℝ).portfolio := by
  have h := addOption_of_not_valid realLibm VarianceCalculator.new badOption badOption_not_valid
  constructor
  · simpa [VarianceCalculator.new] using h
  · rw [h]
    simp [VarianceCalculator.new]

/-- C2, on the code: `getVarianceIfPurchased` with strike `-100` on a freshly constructed
calculator throws `invalid_argument`, produces no `VarianceInfo` and keeps
`portfolioVariance = 0`, but `pop_back` is skipped: the candidate stays in `portfolio`. -/
theorem getVarianceIfPurchased_invalid_keeps_pushed_option :
    getVarianceIfPurchased realLibm VarianceCalculator.new badOption
        = (Except.error Error.invalid_argument,
           { portfolio := [badOption], portfolioVariance := 0 })
      ∧ (getVarianceIfPurchased realLibm VarianceCalculator.new badOption).2.portfolio
          ≠ (VarianceCalculator.new : VarianceCalculator ℝ).portfolio := by
  have h := getVarianceIfPurchased_of_not_valid realLibm VarianceCalculator.new badOption
    badOption_not_valid
  constructor
  · simpa [VarianceCalculator.new] using h
  · rw [h]
    simp [VarianceCalculator.new]

/-- C3, on the code: the state left by a failed `addOption` on a fresh calculator is
reachable, stores `portfolioVariance = 0`, and a from-scratch `calculatePortfolioVariance`
over its stored sequence throws: the cache is not the value of a recomputation. -/
theorem cache_not_recomputable_after_failed_addOption :
    ∃ s : VarianceCalculator ℝ, Reachable realLibm s
      ∧ calculatePortfolioVariance realLibm s.portfolio = Except.error Error.invalid_argument
      ∧ calculatePortfolioVariance realLibm s.portfolio ≠ Except.ok s.portfolioVariance := by
  have h : calculatePortfolioVariance realLibm [badOption]
      = Except.error Error.invalid_argument :=
    calculatePortfolioVariance_of_some_not_valid realLibm _
      ⟨badOption, List.mem_singleton_self _, badOption_not_valid⟩
  refine ⟨_, reachable_after_failed_addOption, h, ?_⟩
  rw [h]
  exact fun hc => by cases hc

/-- C4, on the code: a reachable state holds an option with strike `-100` in `portfolio`
(the state left by a failed `addOption` on a fresh calculator). -/
theorem reachable_state_stores_invalid_option :
    ∃ s : VarianceCalculator ℝ, Reachable realLibm s
      ∧ ∃ o ∈ s.portfolio, o.strike = -100 ∧ ¬ (o.strike > 0) := by
  refine ⟨_, reachable_after_failed_addOption, badOption, List.mem_singleton_self _, rfl, ?_⟩
  unfold badOption
  norm_num

/-- C5: when every stored option and the candidate have strike > 0 and timeToExpiry > 0,
`getVarianceIfPurchased` returns (does not throw), `currentVariance` is the stored
`portfolioVariance`, `newVariance` is the result of `calculatePortfolioVariance` over
`portfolio ++ [candidate]`, and the calculator after the call equals the calculator before it;
hence a second call returns the same result and the length of `portfolio` is unchanged. -/
theorem getVarianceIfPurchased_valid_is_pure {α : Type} [LinearOrderedField α]
    (M : Libm α) (self : VarianceCalculator α) (candidate : Option α)
    (hs : ∀ p ∈ self.portfolio, p.valid) (hc : candidate.valid) :
    ∃ newVariance,
      calculatePortfolioVariance M (self.portfolio ++ [candidate]) = Except.ok newVariance
      ∧ getVarianceIfPurchased M self candidate
          = (Except.ok { currentVariance := self.portfolioVariance, newVariance := newVariance },
             self)
      ∧ getVarianceIfPurchased M (getVarianceIfPurchased M self candidate).2 candidate
          = getVarianceIfPurchased M self candidate
      ∧ (getVarianceIfPurchased M self candidate).2.portfolio.length
          = self.portfolio.length := by
  obtain ⟨nv, h1, h2⟩ := getVarianceIfPurchased_of_all_valid M self candidate hs hc
  refine ⟨nv, h1, h2, ?_, ?_⟩
  · rw [h2]
    exact h2
  · rw [h2]

/-- C6: `addOption` called in order, on a freshly constructed calculator, for each option
of a list whose options all have strike > 0 and timeToExpiry > 0 never throws; afterwards
`portfolio` is that list and `portfolioVariance` is the sum over the list of
`position^2 * delta^2 * 0.2^2`, where `delta` is what
`blackScholesDelta(option, 5000, 0.2, 0.05)` returns. -/
theorem addOptions_fresh_valid (options : List (Option ℝ)) (h : ∀ o ∈ options, o.valid) :
    (∀ o ∈ options,
        blackScholesDelta realLibm o 5000 0.2 0.05 = Except.ok (delta realLibm o))
      ∧ addOptions realLibm VarianceCalculator.new options
        = (Except.ok (),
           { portfolio := options,
             portfolioVariance :=
               (options.map fun o => o.position ^ 2 * (delta realLibm o) ^ 2 * 0.2 ^ 2).sum }) := by
  constructor
  · intro o ho
    have := blackScholesDelta_of_valid realLibm o (h o ho)
    simpa [underlyingValue, underlyingStdDev, annualReturn] using this
  · by_cases hne : options = []
    · subst hne
      simp [addOptions, VarianceCalculator.new]
    · have := addOptions_of_all_valid realLibm options VarianceCalculator.new
        (by simp [VarianceCalculator.new]) h hne
      rw [this]
      simp only [VarianceCalculator.new, List.nil_append, realLibm_pow_two, underlyingStdDev,
        mul_assoc]

theorem mainCall_valid : mainCall.valid := by
  unfold Option.valid mainCall
  norm_num

theorem mainPut_valid : mainPut.valid := by
  unfold Option.valid mainPut
  norm_num

theorem mainCandidate_valid : mainCandidate.valid := by
  unfold Option.valid mainCandidate
  norm_num

theorem main_options_valid : ∀ o ∈ [mainCall, mainPut], o.valid := by
  intro o ho
  rcases List.mem_cons.mp ho with rfl | ho
  · exact mainCall_valid
  · rw [List.mem_singleton.mp ho]
    exact mainPut_valid

/-- Witness of C5: the calculator of `main` after its two `addOption` calls (whatever the
cached value) and the candidate `Call(120, 1.0, 1)`. -/
theorem getVarianceIfPurchased_valid_is_pure_witness :
    (∀ p ∈ ({ portfolio := [mainCall, mainPut], portfolioVariance := 0 } :
        VarianceCalculator ℝ).portfolio, p.valid)
      ∧ mainCandidate.valid
      ∧ ∃ newVariance,
          calculatePortfolioVariance realLibm ([mainCall, mainPut] ++ [mainCandidate])
            = Except.ok newVariance
          ∧ getVarianceIfPurchased realLibm
              { portfolio := [mainCall, mainPut], portfolioVariance := 0 } mainCandidate
            = (Except.ok { currentVariance := 0, newVariance := newVariance },
               { portfolio := [mainCall, mainPut], portfolioVariance := 0 })
          ∧ getVarianceIfPurchased realLibm
              (getVarianceIfPurchased realLibm
                { portfolio := [mainCall, mainPut], portfolioVariance := 0 } mainCandidate).2
              mainCandidate
            = getVarianceIfPurchased realLibm
                { portfolio := [mainCall, mainPut], portfolioVariance := 0 } mainCandidate
          ∧ (getVarianceIfPurchased realLibm
                { portfolio := [mainCall, mainPut], portfolioVariance := 0 }
                mainCandidate).2.portfolio.length
            = [mainCall, mainPut].length :=
  ⟨main_options_valid, mainCandidate_valid,
    getVarianceIfPurchased_valid_is_pure realLibm
      { portfolio := [mainCall, mainPut], portfolioVariance := 0 } mainCandidate
      main_options_valid mainCandidate_valid⟩

/-- Witness of C6: the two `addOption` calls of `main`. -/
theorem addOptions_fresh_valid_witness :
    (∀ o ∈ [mainCall, mainPut], o.valid)
      ∧ (∀ o ∈ [mainCall, mainPut],
          blackScholesDelta realLibm o 5000 0.2 0.05 = Except.ok (delta realLibm o))
      ∧ addOptions realLibm VarianceCalculator.new [mainCall, mainPut]
        = (Except.ok (),
           { portfolio := [mainCall, mainPut],
             portfolioVariance :=
               ([mainCall, mainPut].map fun o =>
                  o.position ^ 2 * (delta realLibm o) ^ 2 * 0.2 ^ 2).sum }) :=
  ⟨main_options_valid, addOptions_fresh_valid [mainCall, mainPut] main_options_valid⟩

end Engine

/-! ## The normal distribution function -/

section Normal

theorem normcdf_of_nonneg {α : Type} [LinearOrderedField α] (M : Libm α) (x : α)
    (h : 0 ≤ x) : normcdf M x = 1 - upperTail M x := by
  rw [normcdf]
  simp only [ge_iff_le, h, if_true, upperTail, k_sum]

theorem normcdf_of_neg {α : Type} [LinearOrderedField α] (M : Libm α) (x : α)
    (h : x < 0) : normcdf M x = 1 - normcdf M (-x) := by
  rw [normcdf]
  simp only [ge_iff_le, not_le.mpr h, if_false]

theorem realLibm_pow_half : realLibm.pow (2 * M_PI) 0.5 = Real.sqrt (2 * M_PI) := by
  show (2 * M_PI : ℝ) ^ (0.5 : ℝ) = Real.sqrt (2 * M_PI)
  rw [Real.sqrt_eq_rpow]
  norm_num

/-- In the real model the variant of 2.cpp computes the same function. -/
theorem normcdf_2_eq_normcdf (x : ℝ) : normcdf_2 realLibm x = normcdf realLibm x := by
  have hpos : ∀ y : ℝ, 0 ≤ y → normcdf_2 realLibm y = normcdf realLibm y := by
    intro y hy
    rw [normcdf, normcdf_2]
    simp only [ge_iff_le, hy, if_true, realLibm_pow_half]
    rfl
  rcases le_or_lt 0 x with h | h
  · exact hpos x h
  · have h2 : normcdf_2 realLibm x = 1 - normcdf_2 realLibm (-x) := by
      rw [normcdf_2]
      simp only [ge_iff_le, not_le.mpr h, if_false]
    rw [h2, normcdf_of_neg realLibm x h, hpos (-x) (by linarith)]

/-- The literal `M_PI` is the 20-decimal truncation of the number pi. -/
theorem M_PI_near_pi : (M_PI : ℝ) < Real.pi ∧ Real.pi < M_PI + 1e-20 := by
  unfold M_PI
  constructor
  · exact Real.pi_gt_d20
  · have := Real.pi_lt_d20
    norm_num at this ⊢
    linarith

theorem sqrt_two_pi_bounds :
    (2.506628274 : ℝ) < Real.sqrt (2 * M_PI) ∧ Real.sqrt (2 * M_PI) < 2.506628275 := by
  constructor
  · rw [Real.lt_sqrt (by norm_num)]
    unfold M_PI
    norm_num
  · rw [Real.sqrt_lt' (by norm_num)]
    unfold M_PI
    norm_num

theorem k_sum_pos (k : ℝ) (h0 : 0 < k) : 0 < k_sum k := by
  unfold k_sum
  apply mul_pos h0
  nlinarith [sq_nonneg (k - 0.6846), sq_nonneg (k - 0.154), sq_nonneg (k * (k - 0.6846)),
    sq_nonneg k]

theorem k_sum_deriv_nonneg (k : ℝ) :
    0 ≤ 0.319381530 + 2 * (-0.356563782) * k + 3 * 1.781477937 * k ^ 2
      + 4 * (-1.821255978) * k ^ 3 + 5 * 1.330274429 * k ^ 4 := by
  nlinarith [sq_nonneg (k - 0.5477), sq_nonneg (k - 0.1065), sq_nonneg (k * (k - 0.5477)),
    sq_nonneg k, sq_nonneg (k ^ 2)]

theorem k_sum_hasDerivAt (k : ℝ) :
    HasDerivAt (k_sum : ℝ → ℝ)
      (0.319381530 + 2 * (-0.356563782) * k + 3 * 1.781477937 * k ^ 2
        + 4 * (-1.821255978) * k ^ 3 + 5 * 1.330274429 * k ^ 4) k := by
  have h1 := (hasDerivAt_id k).const_mul (0.319381530 : ℝ)
  have h2 := (hasDerivAt_pow 2 k).const_mul (-0.356563782 : ℝ)
  have h3 := (hasDerivAt_pow 3 k).const_mul (1.781477937 : ℝ)
  have h4 := (hasDerivAt_pow 4 k).const_mul (-1.821255978 : ℝ)
  have h5 := (hasDerivAt_pow 5 k).const_mul (1.330274429 : ℝ)
  have h := (((h1.add h2).add h3).add h4).add h5
  refine HasDerivAt.congr_deriv (h.congr_of_eventuallyEq ?_) ?_
  · filter_upwards with t
    simp only [id, Pi.add_apply, k_sum]
    ring
  · ring

theorem k_sum_monotone : Monotone (k_sum : ℝ → ℝ) := by
  apply monotone_of_deriv_nonneg
  · intro k
    exact (k_sum_hasDerivAt k).differentiableAt
  · intro k
    rw [(k_sum_hasDerivAt k).deriv]
    exact k_sum_deriv_nonneg k

theorem k_bounds (x : ℝ) (h : 0 ≤ x) :
    0 < 1 / (1 + 0.2316419 * x) ∧ 1 / (1 + 0.2316419 * x) ≤ 1 := by
  have hd : (1 : ℝ) ≤ 1 + 0.2316419 * x := by nlinarith
  constructor
  · positivity
  · rw [div_le_one (by linarith)]
    exact hd

theorem upperTail_eq (x : ℝ) :
    upperTail realLibm x
      = (1 / Real.sqrt (2 * M_PI)) * Real.exp (-0.5 * x * x)
          * k_sum (1 / (1 + 0.2316419 * x)) := by
  unfold upperTail
  rw [realLibm_pow_half]
  rfl

theorem upperTail_pos (x : ℝ) (h : 0 ≤ x) : 0 < upperTail realLibm x := by
  rw [upperTail_eq]
  have hs := sqrt_two_pi_bounds.1
  have hk := k_sum_pos _ (k_bounds x h).1
  have he := Real.exp_pos (-0.5 * x * x)
  have hc : 0 < 1 / Real.sqrt (2 * M_PI) := by
    apply div_pos one_pos
    linarith
  exact mul_pos (mul_pos hc he) hk

theorem upperTail_antitone (x y : ℝ) (hx : 0 ≤ x) (hxy : x ≤ y) :
    upperTail realLibm y ≤ upperTail realLibm x := by
  rw [upperTail_eq, upperTail_eq]
  have hy : 0 ≤ y := le_trans hx hxy
  have hs := sqrt_two_pi_bounds.1
  have hc : 0 ≤ 1 / Real.sqrt (2 * M_PI) := by
    apply div_nonneg zero_le_one
    linarith
  have he : Real.exp (-0.5 * y * y) ≤ Real.exp (-0.5 * x * x) := by
    apply Real.exp_le_exp.mpr
    nlinarith [mul_le_mul hxy hxy hx hy]
  have hk : 1 / (1 + 0.2316419 * y) ≤ 1 / (1 + 0.2316419 * x) := by
    apply one_div_le_one_div_of_le
    · nlinarith
    · nlinarith
  have hp : k_sum (1 / (1 + 0.2316419 * y)) ≤ k_sum (1 / (1 + 0.2316419 * x)) :=
    k_sum_monotone hk
  have hp0 : 0 ≤ k_sum (1 / (1 + 0.2316419 * y)) := (k_sum_pos _ (k_bounds y hy).1).le
  have hex : 0 ≤ Real.exp (-0.5 * x * x) := (Real.exp_pos _).le
  apply mul_le_mul _ hp hp0 (mul_nonneg hc hex)
  exact mul_le_mul_of_nonneg_left he hc

theorem upperTail_zero : upperTail realLibm 0 = 1.253314136 / Real.sqrt (2 * M_PI) := by
  have hk : k_sum (1 / (1 + 0.2316419 * (0 : ℝ))) = 1.253314136 := by
    unfold k_sum
    norm_num
  have he : Real.exp (-0.5 * (0 : ℝ) * 0) = 1 := by
    rw [mul_zero, Real.exp_zero]
  rw [upperTail_eq, hk, he]
  ring

theorem upperTail_zero_bounds :
    (0.4999999 : ℝ) < upperTail realLibm 0 ∧ upperTail realLibm 0 < 0.5 := by
  rw [upperTail_zero]
  obtain ⟨h1, h2⟩ := sqrt_two_pi_bounds
  have hpos : (0 : ℝ) < Real.sqrt (2 * M_PI) := by linarith
  constructor
  · rw [lt_div_iff₀ hpos]
    linarith
  · rw [div_lt_iff₀ hpos]
    linarith

theorem upperTail_le_half (x : ℝ) (h : 0 ≤ x) : upperTail realLibm x < 0.5 :=
  lt_of_le_of_lt (upperTail_antitone 0 x le_rfl h) upperTail_zero_bounds.2

theorem normcdf_nonneg_bounds (x : ℝ) (h : 0 ≤ x) :
    0.5 < normcdf realLibm x ∧ normcdf realLibm x < 1 := by
  rw [normcdf_of_nonneg realLibm x h]
  have h1 := upperTail_pos x h
  have h2 := upperTail_le_half x h
  constructor <;> linarith

theorem normcdf_monotone_nonneg (x y : ℝ) (hx : 0 ≤ x) (hxy : x ≤ y) :
    normcdf realLibm x ≤ normcdf realLibm y := by
  rw [normcdf_of_nonneg realLibm x hx, normcdf_of_nonneg realLibm y (le_trans hx hxy)]
  have := upperTail_antitone x y hx hxy
  linarith

/-- C7 as stated fails at `x = 0`: `normcdf(-0)` is `normcdf(0)`, which is not
`1 - normcdf(0)` because `normcdf(0)` is not one half. -/
theorem normcdf_symmetry_fails_at_zero :
    normcdf realLibm (-0) ≠ 1 - normcdf realLibm 0 := by
  rw [neg_zero, normcdf_of_nonneg realLibm 0 le_rfl]
  have h := upperTail_zero_bounds.2
  intro hc
  linarith

/-- C7, amended: for every real `x ≠ 0`, `normcdf(-x) = 1 - normcdf(x)` exactly; and for
every real `x` (so also at `x = 0`, where the equation fails) the two sides differ by less
than `2e-7`. -/
theorem normcdf_symmetry_of_ne_zero (x : ℝ) (hx : x ≠ 0) :
    normcdf realLibm (-x) = 1 - normcdf realLibm x
      ∧ ∀ y : ℝ, |normcdf realLibm (-y) - (1 - normcdf realLibm y)| < 2e-7 := by
  have hsym : ∀ z : ℝ, z ≠ 0 → normcdf realLibm (-z) = 1 - normcdf realLibm z := by
    intro z hz
    rcases lt_or_gt_of_ne hz with h | h
    · rw [normcdf_of_neg realLibm z h]
      ring
    · rw [normcdf_of_neg realLibm (-z) (by linarith), neg_neg]
  refine ⟨hsym x hx, ?_⟩
  intro y
  by_cases hy : y = 0
  · subst hy
    rw [neg_zero, normcdf_of_nonneg realLibm 0 le_rfl]
    obtain ⟨h1, h2⟩ := upperTail_zero_bounds
    rw [abs_lt]
    constructor <;> norm_num <;> linarith
  · rw [hsym y hy, sub_self, abs_zero]
    norm_num

/-- Witness of C7 (amended) at `x = 1`. -/
theorem normcdf_symmetry_of_ne_zero_witness :
    (1 : ℝ) ≠ 0
      ∧ normcdf realLibm (-1) = 1 - normcdf realLibm 1
      ∧ ∀ y : ℝ, |normcdf realLibm (-y) - (1 - normcdf realLibm y)| < 2e-7 :=
  ⟨one_ne_zero, normcdf_symmetry_of_ne_zero 1 one_ne_zero⟩

/-- In exact real arithmetic only: `normcdf` is total and `0 < normcdf(x) < 1` for every
real `x`, where for `x >= 0` the value is `1 - (1/sqrt(2*M_PI)) * exp(-0.5*x*x) * k_sum` with
`k = 1/(1 + 0.2316419*x)` and for `x < 0` it is `1 - normcdf(-x)`.  This does not settle the
range of the `double` function (claim C8): there `1.0 - t` rounds to exactly `1.0` once the
subtracted term `t` is below half an ulp, so the strict bounds are not a fact of the code. -/
theorem normcdf_range (x : ℝ) :
    0 < normcdf realLibm x ∧ normcdf realLibm x < 1
      ∧ normcdf realLibm x
        = if 0 ≤ x then
            1 - (1 / Real.sqrt (2 * M_PI)) * Real.exp (-0.5 * x * x)
              * ((1 / (1 + 0.2316419 * x)) * (0.319381530 + (1 / (1 + 0.2316419 * x))
                * (-0.356563782 + (1 / (1 + 0.2316419 * x)) * (1.781477937
                + (1 / (1 + 0.2316419 * x)) * (-1.821255978
                + 1.330274429 * (1 / (1 + 0.2316419 * x)))))))
          else 1 - normcdf realLibm (-x) := by
  rcases le_or_lt 0 x with h | h
  · obtain ⟨h1, h2⟩ := normcdf_nonneg_bounds x h
    refine ⟨by linarith, h2, ?_⟩
    rw [if_pos h, normcdf_of_nonneg realLibm x h, upperTail_eq]
    rfl
  · obtain ⟨h1, h2⟩ := normcdf_nonneg_bounds (-x) (by linarith)
    rw [if_neg (not_le.mpr h), normcdf_of_neg realLibm x h]
    exact ⟨by linarith, by linarith, rfl⟩

/-- C9: `normcdf(0) = 1 - (0.319381530 - 0.356563782 + 1.781477937 - 1.821255978 +
1.330274429) / sqrt(2*M_PI)`, and this value is within `1e-7` of `0.5`. -/
theorem normcdf_zero_near_half :
    normcdf realLibm 0
        = 1 - (0.319381530 - 0.356563782 + 1.781477937 - 1.821255978 + 1.330274429)
            / Real.sqrt (2 * M_PI)
      ∧ |normcdf realLibm 0 - 0.5| < 1e-7 := by
  obtain ⟨h1, h2⟩ := upperTail_zero_bounds
  have h0 : normcdf realLibm 0 = 1 - upperTail realLibm 0 :=
    normcdf_of_nonneg realLibm 0 le_rfl
  constructor
  · rw [h0, upperTail_zero]
    norm_num
  · rw [h0, abs_lt]
    constructor <;> norm_num <;> linarith

/-- In exact real arithmetic only: `normcdf` is non-decreasing, `x <= y` implies
`normcdf(x) <= normcdf(y)`, on either branch and across the switch at `0`.  This does not
settle monotonicity of the `double` function (claim C10), whose last bit depends on the
rounding of each operation and of the platform's `exp`. -/
theorem normcdf_monotone (x y : ℝ) (hxy : x ≤ y) :
    normcdf realLibm x ≤ normcdf realLibm y := by
  rcases le_or_lt 0 x with hx | hx
  · exact normcdf_monotone_nonneg x y hx hxy
  · rw [normcdf_of_neg realLibm x hx]
    rcases le_or_lt 0 y with hy | hy
    · have h1 := (normcdf_nonneg_bounds (-x) (by linarith)).1
      have h2 := (normcdf_nonneg_bounds y hy).1
      linarith
    · rw [normcdf_of_neg realLibm y hy]
      have := normcdf_monotone_nonneg (-y) (-x) (by linarith) (by linarith)
      linarith

end Normal

/-! ## Contracts of the delta and of the aggregation -/

section Contracts

theorem valid_iff_not_guard {α : Type} [LinearOrderedField α] (o : Option α) :
    o.valid ↔ ¬ (o.timeToExpiry ≤ 0 ∨ o.strike ≤ 0) := by
  rw [← not_valid_iff, not_not]

/-- C11: over the reals, `blackScholesDelta` throws `invalid_argument` exactly when
`timeToExpiry <= 0` or `strike <= 0`, and otherwise it returns
`exp(-r*T) * normcdf(d1)` for a call and `-exp(-r*T) * normcdf(-d1)` for a put, with
`d1 = (ln(S/K) + (r + 0.5*vol^2)*T) / (vol*sqrt(T))`. -/
theorem blackScholesDelta_contract (o : Option ℝ) (S vol r : ℝ) :
    (blackScholesDelta realLibm o S vol r = Except.error Error.invalid_argument
        ↔ (o.timeToExpiry ≤ 0 ∨ o.strike ≤ 0))
      ∧ blackScholesDelta realLibm o S vol r
        = if o.timeToExpiry ≤ 0 ∨ o.strike ≤ 0 then Except.error Error.invalid_argument
          else
            match o.type with
            | OptionType.Call =>
              Except.ok (Real.exp (-r * o.timeToExpiry)
                * normcdf realLibm ((Real.log (S / o.strike)
                    + (r + 0.5 * vol ^ 2) * o.timeToExpiry) / (vol * Real.sqrt o.timeToExpiry)))
            | OptionType.Put =>
              Except.ok (-Real.exp (-r * o.timeToExpiry)
                * normcdf realLibm (-((Real.log (S / o.strike)
                    + (r + 0.5 * vol ^ 2) * o.timeToExpiry)
                      / (vol * Real.sqrt o.timeToExpiry)))) := by
  by_cases hg : o.timeToExpiry ≤ 0 ∨ o.strike ≤ 0
  · have h : blackScholesDelta realLibm o S vol r = Except.error Error.invalid_argument := by
      unfold blackScholesDelta
      rw [if_pos hg]
    refine ⟨⟨fun _ => hg, fun _ => h⟩, ?_⟩
    rw [h, if_pos hg]
  · have h : blackScholesDelta realLibm o S vol r
        = match o.type with
          | OptionType.Call =>
            Except.ok (Real.exp (-r * o.timeToExpiry)
              * normcdf realLibm ((Real.log (S / o.strike)
                  + (r + 0.5 * vol ^ 2) * o.timeToExpiry) / (vol * Real.sqrt o.timeToExpiry)))
          | OptionType.Put =>
            Except.ok (-Real.exp (-r * o.timeToExpiry)
              * normcdf realLibm (-((Real.log (S / o.strike)
                  + (r + 0.5 * vol ^ 2) * o.timeToExpiry)
                    / (vol * Real.sqrt o.timeToExpiry)))) := by
      unfold blackScholesDelta
      rw [if_neg hg]
      cases ht : o.type <;> simp [realLibm_pow_two] <;> rfl
    refine ⟨⟨?_, fun hc => absurd hc hg⟩, ?_⟩
    · intro he
      rw [h] at he
      cases ht : o.type <;> rw [ht] at he <;> cases he
    · rw [h, if_neg hg]

/-- C12: `calculatePortfolioVariance` throws `invalid_argument` exactly when some element
has `strike <= 0` or `timeToExpiry <= 0`, it returns a value (a sum) exactly when no
element has, and it returns `0` for the empty sequence. -/
theorem calculatePortfolioVariance_fails_iff {α : Type} [LinearOrderedField α]
    (M : Libm α) (l : List (Option α)) :
    (calculatePortfolioVariance M l = Except.error Error.invalid_argument
        ↔ ∃ o ∈ l, o.strike ≤ 0 ∨ o.timeToExpiry ≤ 0)
      ∧ ((∃ v, calculatePortfolioVariance M l = Except.ok v)
        ↔ ∀ o ∈ l, 0 < o.strike ∧ 0 < o.timeToExpiry)
      ∧ calculatePortfolioVariance M [] = Except.ok 0 := by
  have hempty : calculatePortfolioVariance M [] = Except.ok 0 := by
    simp [calculatePortfolioVariance, calculatePortfolioVarianceLoop]
  rcases all_valid_or_some_not_valid l with hv | hv
  · have h := calculatePortfolioVariance_of_all_valid M l hv
    refine ⟨⟨?_, ?_⟩, ⟨fun _ => hv, fun _ => ⟨_, h⟩⟩, hempty⟩
    · intro hc
      rw [h] at hc
      cases hc
    · rintro ⟨o, ho, hbad⟩
      have := hv o ho
      rcases hbad with hb | hb
      · exact absurd this.1 (not_lt.mpr hb)
      · exact absurd this.2 (not_lt.mpr hb)
  · have h := calculatePortfolioVariance_of_some_not_valid M l hv
    obtain ⟨o, ho, hbad⟩ := hv
    refine ⟨⟨fun _ => ⟨o, ho, ?_⟩, fun _ => h⟩, ⟨?_, ?_⟩, hempty⟩
    · rcases (not_valid_iff o).mp hbad with hb | hb
      · exact Or.inr hb
      · exact Or.inl hb
    · rintro ⟨v, hvv⟩
      rw [h] at hvv
      cases hvv
    · intro hall
      exact absurd (hall o ho) hbad

theorem contribution_nonneg (o : Option ℝ) :
    0 ≤ realLibm.pow o.position 2
      * (realLibm.pow (delta realLibm o) 2 * realLibm.pow underlyingStdDev 2) := by
  simp only [realLibm_pow_two]
  positivity

theorem sum_contributions_nonneg (l : List (Option ℝ)) :
    0 ≤ (l.map fun o => realLibm.pow o.position 2
      * (realLibm.pow (delta realLibm o) 2 * realLibm.pow underlyingStdDev 2)).sum := by
  apply List.sum_nonneg
  intro x hx
  obtain ⟨o, -, rfl⟩ := List.mem_map.mp hx
  exact contribution_nonneg o

/-- In exact real arithmetic only: in every state reachable from a freshly constructed
calculator, `addOption` of an option with strike > 0 and timeToExpiry > 0 leaves a
`portfolioVariance` that is greater than or equal to the one before the call.  This does not
settle claim C13 for the `double` code, where `pow(position, 2)` can overflow to infinity and
its product with an option variance of `0` is NaN. -/
theorem addOption_valid_not_decreasing (s : VarianceCalculator ℝ)
    (hs : Reachable realLibm s) (o : Option ℝ) (ho : 0 < o.strike ∧ 0 < o.timeToExpiry) :
    s.portfolioVariance ≤ (addOption realLibm s o).2.portfolioVariance := by
  have hov : o.valid := ho
  rcases all_valid_or_some_not_valid (s.portfolio ++ [o]) with hv | hv
  · have hsv : ∀ p ∈ s.portfolio, p.valid := fun p hp => hv p (List.mem_append_left _ hp)
    have htw : s.portfolio.takeWhile (fun p => decide p.valid) = s.portfolio :=
      List.takeWhile_eq_self_iff.mpr (fun p hp => decide_eq_true (hsv p hp))
    have hold := reachable_cache realLibm s hs
    rw [htw] at hold
    rw [addOption_of_all_valid realLibm s o hsv hov]
    simp only [List.map_append, List.sum_append, List.map_cons, List.map_nil, List.sum_cons,
      List.sum_nil, add_zero]
    rw [← hold]
    linarith [contribution_nonneg o]
  · rw [addOption_of_some_not_valid realLibm s o hv]

/-- C14: in every state, `addOption` of an option with `strike <= 0` (any type, any
timeToExpiry) throws `invalid_argument` and leaves `portfolioVariance` at the value it had
before the call. -/
theorem addOption_nonpositive_strike_keeps_variance {α : Type} [LinearOrderedField α]
    (M : Libm α) (self : VarianceCalculator α) (o : Option α) (h : o.strike ≤ 0) :
    (addOption M self o).1 = Except.error Error.invalid_argument
      ∧ (addOption M self o).2.portfolioVariance = self.portfolioVariance := by
  have hbad : ¬ o.valid := (not_valid_iff o).mpr (Or.inr h)
  rw [addOption_of_not_valid M self o hbad]
  exact ⟨rfl, rfl⟩

/-- Witness of C14: strike `-100` on a calculator that holds the two options of `main`. -/
theorem addOption_nonpositive_strike_keeps_variance_witness :
    badOption.strike ≤ 0
      ∧ (addOption realLibm { portfolio := [mainCall, mainPut], portfolioVariance := 1 }
            badOption).1 = Except.error Error.invalid_argument
      ∧ (addOption realLibm { portfolio := [mainCall, mainPut], portfolioVariance := 1 }
            badOption).2.portfolioVariance = 1 :=
  ⟨by unfold badOption; norm_num,
    addOption_nonpositive_strike_keeps_variance realLibm
      { portfolio := [mainCall, mainPut], portfolioVariance := 1 } badOption
      (by unfold badOption; norm_num)⟩

/-- In exact real arithmetic only: `calculateOptionVariance` of an option with strike > 0
and timeToExpiry > 0 returns a value that is `>= 0`, and in every state reachable from a
freshly constructed calculator `portfolioVariance >= 0`.  This does not settle claim C15 for
the `double` code, where the aggregate can be NaN (infinity times zero). -/
theorem variance_nonneg (o : Option ℝ) (ho : 0 < o.strike ∧ 0 < o.timeToExpiry)
    (s : VarianceCalculator ℝ) (hs : Reachable realLibm s) :
    (∃ v, calculateOptionVariance realLibm o = Except.ok v ∧ 0 ≤ v)
      ∧ 0 ≤ s.portfolioVariance := by
  constructor
  · refine ⟨_, calculateOptionVariance_of_valid realLibm o ho, ?_⟩
    simp only [realLibm_pow_two]
    positivity
  · rw [reachable_cache realLibm s hs]
    exact sum_contributions_nonneg _

/-- C16: `resetPortfolio` is total and from every state yields the empty portfolio with
`portfolioVariance = 0`; so does reset, any sequence of calls (returning or throwing), reset;
and so does `resetPortfolio` of the price-difference portfolio of 3.cpp after any sequence of
its `addOption` calls. -/
theorem resetPortfolio_yields_fresh {α : Type} [LinearOrderedField α] (M : Libm α)
    (s : VarianceCalculator α) (calls : List (Call α))
    (t : PriceModel.OptionsPortfolio α) (options : List (PriceModel.Option α)) :
    resetPortfolio s = { portfolio := [], portfolioVariance := 0 }
      ∧ resetPortfolio (run M (resetPortfolio s) calls)
          = { portfolio := [], portfolioVariance := 0 }
      ∧ PriceModel.resetPortfolio (PriceModel.addOptions t options)
          = { optionsList := [], portfolioVariance := 0 } :=
  ⟨rfl, rfl, rfl⟩

/-- In exact arithmetic only: for two sequences of options with strike > 0 and
timeToExpiry > 0 that are permutations of each other `calculatePortfolioVariance` returns the
same value, and the value for a concatenation is the sum of the values for its two parts.
This does not settle claim C17 for the `double` code: the loop adds in insertion order and
`double` addition is not associative, so the last bit depends on the order. -/
theorem calculatePortfolioVariance_order_independent {α : Type} [LinearOrderedField α]
    (M : Libm α) (l₁ l₂ a b : List (Option α)) (hp : l₁.Perm l₂)
    (h₁ : ∀ o ∈ l₁, 0 < o.strike ∧ 0 < o.timeToExpiry)
    (ha : ∀ o ∈ a, 0 < o.strike ∧ 0 < o.timeToExpiry)
    (hb : ∀ o ∈ b, 0 < o.strike ∧ 0 < o.timeToExpiry) :
    (∃ v, calculatePortfolioVariance M l₁ = Except.ok v
        ∧ calculatePortfolioVariance M l₂ = Except.ok v)
      ∧ ∃ va vb, calculatePortfolioVariance M a = Except.ok va
        ∧ calculatePortfolioVariance M b = Except.ok vb
        ∧ calculatePortfolioVariance M (a ++ b) = Except.ok (va + vb) := by
  have h₂ : ∀ o ∈ l₂, o.valid := fun o ho => h₁ o (hp.mem_iff.mpr ho)
  have hab : ∀ o ∈ a ++ b, o.valid := by
    intro o ho
    rcases List.mem_append.mp ho with h | h
    · exact ha o h
    · exact hb o h
  constructor
  · refine ⟨_, calculatePortfolioVariance_of_all_valid M l₁ h₁, ?_⟩
    rw [calculatePortfolioVariance_of_all_valid M l₂ h₂]
    exact congrArg Except.ok ((hp.map _).sum_eq).symm
  · refine ⟨_, _, calculatePortfolioVariance_of_all_valid M a ha,
      calculatePortfolioVariance_of_all_valid M b hb, ?_⟩
    rw [calculatePortfolioVariance_of_all_valid M (a ++ b) hab, List.map_append,
      List.sum_append]

theorem step_of_stored_not_valid {α : Type} [LinearOrderedField α] (M : Libm α)
    (t : VarianceCalculator α) (c : Call α) (hc : c ≠ Call.resetPortfolio)
    (hp : ∃ p ∈ t.portfolio, ¬ p.valid) :
    (∃ p ∈ (step M t c).portfolio, ¬ p.valid)
      ∧ (step M t c).portfolioVariance = t.portfolioVariance := by
  obtain ⟨p, hp, hpv⟩ := hp
  cases c with
  | resetPortfolio => exact absurd rfl hc
  | addOption o =>
    have hb : ∃ q ∈ t.portfolio ++ [o], ¬ q.valid := ⟨p, List.mem_append_left _ hp, hpv⟩
    simp only [step, addOption_of_some_not_valid M t o hb]
    exact ⟨hb, trivial⟩
  | getVarianceIfPurchased o =>
    have hb : ∃ q ∈ t.portfolio ++ [o], ¬ q.valid := ⟨p, List.mem_append_left _ hp, hpv⟩
    simp only [step, getVarianceIfPurchased_of_some_not_valid M t o hb]
    exact ⟨hb, trivial⟩

theorem run_of_stored_not_valid {α : Type} [LinearOrderedField α] (M : Libm α)
    (calls : List (Call α)) (t : VarianceCalculator α)
    (hc : ∀ c ∈ calls, c ≠ Call.resetPortfolio) (hp : ∃ p ∈ t.portfolio, ¬ p.valid) :
    (∃ p ∈ (run M t calls).portfolio, ¬ p.valid)
      ∧ (run M t calls).portfolioVariance = t.portfolioVariance := by
  induction calls generalizing t with
  | nil => exact ⟨hp, rfl⟩
  | cons c rest ih =>
    obtain ⟨h1, h2⟩ := step_of_stored_not_valid M t c (hc c (List.mem_cons_self c rest)) hp
    obtain ⟨h3, h4⟩ := ih (step M t c) (fun d hd => hc d (List.mem_cons_of_mem c hd)) h1
    exact ⟨h3, h4.trans h2⟩

/-- C20: after `addOption` (or `getVarianceIfPurchased`, which leaves the same object) has
thrown on an option with `strike <= 0` or `timeToExpiry <= 0`, and after any further calls
other than `resetPortfolio`, every `addOption` and every `getVarianceIfPurchased`, whatever
its option, throws `invalid_argument` and leaves `portfolioVariance` at the value it had
before the first failure; after `resetPortfolio`, `addOption` of an option with strike > 0
and timeToExpiry > 0 returns. -/
theorem failed_call_blocks_until_reset {α : Type} [LinearOrderedField α] (M : Libm α)
    (s : VarianceCalculator α) (bad : Option α)
    (hbad : bad.strike ≤ 0 ∨ bad.timeToExpiry ≤ 0)
    (calls : List (Call α)) (hcalls : ∀ c ∈ calls, c ≠ Call.resetPortfolio)
    (o good : Option α) (hgood : 0 < good.strike ∧ 0 < good.timeToExpiry) :
    (addOption M s bad).1 = Except.error Error.invalid_argument
      ∧ (getVarianceIfPurchased M s bad).1 = Except.error Error.invalid_argument
      ∧ (getVarianceIfPurchased M s bad).2 = (addOption M s bad).2
      ∧ (addOption M (run M (addOption M s bad).2 calls) o).1
          = Except.error Error.invalid_argument
      ∧ (addOption M (run M (addOption M s bad).2 calls) o).2.portfolioVariance
          = s.portfolioVariance
      ∧ (getVarianceIfPurchased M (run M (addOption M s bad).2 calls) o).1
          = Except.error Error.invalid_argument
      ∧ (getVarianceIfPurchased M (run M (addOption M s bad).2 calls) o).2.portfolioVariance
          = s.portfolioVariance
      ∧ (addOption M (resetPortfolio (run M (addOption M s bad).2 calls)) good).1
          = Except.ok () := by
  have hnv : ¬ bad.valid := (not_valid_iff bad).mpr hbad.symm
  have ha := addOption_of_not_valid M s bad hnv
  have hg := getVarianceIfPurchased_of_not_valid M s bad hnv
  have hstored : ∃ p ∈ (addOption M s bad).2.portfolio, ¬ p.valid := by
    rw [ha]
    exact ⟨bad, by simp, hnv⟩
  obtain ⟨hp, hvar⟩ := run_of_stored_not_valid M calls (addOption M s bad).2 hcalls hstored
  have hvar' : (run M (addOption M s bad).2 calls).portfolioVariance = s.portfolioVariance := by
    rw [hvar, ha]
  have hb : ∃ q ∈ (run M (addOption M s bad).2 calls).portfolio ++ [o], ¬ q.valid := by
    obtain ⟨p, hp1, hp2⟩ := hp
    exact ⟨p, List.mem_append_left _ hp1, hp2⟩
  have hreset := addOption_of_all_valid M
    (resetPortfolio (run M (addOption M s bad).2 calls)) good
    (by simp [resetPortfolio]) hgood
  refine ⟨by rw [ha], by rw [hg], by rw [ha, hg], ?_, ?_, ?_, ?_, by rw [hreset]⟩
  · rw [addOption_of_some_not_valid M _ o hb]
  · rw [addOption_of_some_not_valid M _ o hb]
    exact hvar'
  · rw [getVarianceIfPurchased_of_some_not_valid M _ o hb]
  · rw [getVarianceIfPurchased_of_some_not_valid M _ o hb]
    exact hvar'

/-- Witness of C20: a fresh calculator, the failing option of strike `-100`, then
`addOption(Call(100, 1.0, 1))` and `getVarianceIfPurchased(Call(120, 1.0, 1))`, then the
calls with `Put(100, 1.0, -1)`, and `addOption(Call(100, 1.0, 1))` after the reset. -/
theorem failed_call_blocks_until_reset_witness :
    (badOption.strike ≤ 0 ∨ badOption.timeToExpiry ≤ 0)
      ∧ (∀ c ∈ [Call.addOption mainCall, Call.getVarianceIfPurchased mainCandidate],
          c ≠ Call.resetPortfolio)
      ∧ (0 < mainCall.strike ∧ 0 < mainCall.timeToExpiry)
      ∧ (addOption realLibm VarianceCalculator.new badOption).1
          = Except.error Error.invalid_argument
      ∧ (getVarianceIfPurchased realLibm VarianceCalculator.new badOption).1
          = Except.error Error.invalid_argument
      ∧ (getVarianceIfPurchased realLibm VarianceCalculator.new badOption).2
          = (addOption realLibm VarianceCalculator.new badOption).2
      ∧ (addOption realLibm (run realLibm (addOption realLibm VarianceCalculator.new badOption).2
            [Call.addOption mainCall, Call.getVarianceIfPurchased mainCandidate]) mainPut).1
          = Except.error Error.invalid_argument
      ∧ (addOption realLibm (run realLibm (addOption realLibm VarianceCalculator.new badOption).2
            [Call.addOption mainCall, Call.getVarianceIfPurchased mainCandidate])
            mainPut).2.portfolioVariance
          = (VarianceCalculator.new : VarianceCalculator ℝ).portfolioVariance
      ∧ (getVarianceIfPurchased realLibm
            (run realLibm (addOption realLibm VarianceCalculator.new badOption).2
              [Call.addOption mainCall, Call.getVarianceIfPurchased mainCandidate]) mainPut).1
          = Except.error Error.invalid_argument
      ∧ (getVarianceIfPurchased realLibm
            (run realLibm (addOption realLibm VarianceCalculator.new badOption).2
              [Call.addOption mainCall, Call.getVarianceIfPurchased mainCandidate])
            mainPut).2.portfolioVariance
          = (VarianceCalculator.new : VarianceCalculator ℝ).portfolioVariance
      ∧ (addOption realLibm (resetPortfolio
            (run realLibm (addOption realLibm VarianceCalculator.new badOption).2
              [Call.addOption mainCall, Call.getVarianceIfPurchased mainCandidate])) mainCall).1
          = Except.ok () :=
  have hb : badOption.strike ≤ 0 ∨ badOption.timeToExpiry ≤ 0 :=
    Or.inl (by unfold badOption; norm_num)
  have hc : ∀ c ∈ [Call.addOption mainCall, Call.getVarianceIfPurchased mainCandidate],
      c ≠ Call.resetPortfolio := by
    intro c hc
    rcases List.mem_cons.mp hc with rfl | hc
    · exact fun h => Call.noConfusion h
    · rw [List.mem_singleton.mp hc]
      exact fun h => Call.noConfusion h
  ⟨hb, hc, mainCall_valid,
    failed_call_blocks_until_reset realLibm VarianceCalculator.new badOption hb
      [Call.addOption mainCall, Call.getVarianceIfPurchased mainCandidate] hc
      mainPut mainCall mainCall_valid⟩

end Contracts

end DeltaModel

/-! ## The price-difference portfolio -/

namespace PriceModel

section PortfolioFacts

variable {α : Type} [LinearOrderedField α]

theorem addOption_of_accepted (s : OptionsPortfolio α) (o : Option α) (h : o.accepted) :
    addOption s o
      = { optionsList := s.optionsList ++ [o],
          portfolioVariance := s.portfolioVariance
            + (o.underlyingPrice - (o.strikePrice : α)) ^ 2 } := by
  obtain ⟨h1, h2, h3, h4, h5⟩ := h
  have g1 : ¬ (o.strikePrice ≤ 0 ∨ o.underlyingPrice ≤ 0 ∨ o.daysToExpiry ≤ 0) := by
    rintro (h | h | h)
    · exact absurd h1 (not_lt.mpr h)
    · exact absurd h2 (not_lt.mpr h)
    · exact absurd h3 (not_lt.mpr h)
  have g2 : ¬ (o.type ≠ "call" ∧ o.type ≠ "put") := by
    rintro ⟨ha, hb⟩
    rcases h4 with h | h
    · exact ha h
    · exact hb h
  have g3 : ¬ (o.position ≠ "long" ∧ o.position ≠ "short") := by
    rintro ⟨ha, hb⟩
    rcases h5 with h | h
    · exact ha h
    · exact hb h
  unfold addOption
  rw [if_neg g1, if_neg g2, if_neg g3]
  have hsq : calculateIndividualVariance o * calculateIndividualVariance o
      = (o.underlyingPrice - (o.strikePrice : α)) ^ 2 := by
    unfold calculateIndividualVariance
    rcases h4 with h | h
    · by_cases hl : o.position = "long" <;> simp [h, hl] <;> ring
    · have hne : o.type ≠ "call" := by
        rw [h]
        decide
      by_cases hl : o.position = "long" <;> simp [h, hl] <;> ring
  simp only [hsq]

theorem addOption_of_not_accepted (s : OptionsPortfolio α) (o : Option α)
    (h : ¬ o.accepted) : addOption s o = s := by
  unfold addOption
  by_cases g1 : o.strikePrice ≤ 0 ∨ o.underlyingPrice ≤ 0 ∨ o.daysToExpiry ≤ 0
  · rw [if_pos g1]
  · rw [if_neg g1]
    by_cases g2 : o.type ≠ "call" ∧ o.type ≠ "put"
    · rw [if_pos g2]
    · rw [if_neg g2]
      by_cases g3 : o.position ≠ "long" ∧ o.position ≠ "short"
      · rw [if_pos g3]
      · exfalso
        apply h
        push_neg at g1 g2 g3
        refine ⟨g1.1, g1.2.1, g1.2.2, ?_, ?_⟩
        · by_cases hc : o.type = "call"
          · exact Or.inl hc
          · exact Or.inr (g2 hc)
        · by_cases hc : o.position = "long"
          · exact Or.inl hc
          · exact Or.inr (g3 hc)

theorem addOptions_eq (options : List (Option α)) (s : OptionsPortfolio α) :
    addOptions s options
      = { optionsList := s.optionsList ++ options.filter (fun o => decide o.accepted),
          portfolioVariance := s.portfolioVariance
            + ((options.filter (fun o => decide o.accepted)).map fun o =>
                (o.underlyingPrice - (o.strikePrice : α)) ^ 2).sum } := by
  induction options generalizing s with
  | nil => simp [addOptions]
  | cons o rest ih =>
    have hstep : addOptions s (o :: rest) = addOptions (addOption s o) rest := rfl
    rw [hstep, ih]
    by_cases h : o.accepted
    · rw [addOption_of_accepted s o h]
      simp [List.filter_cons, h, add_assoc]
    · rw [addOption_of_not_accepted s o h]
      simp [List.filter_cons, h]

theorem invalidOption_not_accepted : ¬ invalidOption.accepted := by
  unfold Option.accepted invalidOption
  norm_num

theorem callOption_accepted : callOption.accepted := by
  unfold Option.accepted callOption
  norm_num

theorem putOption_accepted : putOption.accepted := by
  unfold Option.accepted putOption
  norm_num

/-- C18: `addOption` of the price-difference portfolio stores the option if and only if
strikePrice > 0, underlyingPrice > 0, daysToExpiry > 0, the type is `call` or `put` and the
position is `long` or `short`; for any other option the object after the call is the object
before it (same `optionsList`, same `portfolioVariance`).  The option of `testEdgeCases`
(call, long, -100, 5100, 30) leaves the list of a fresh portfolio empty. -/
theorem addOption_stores_iff_accepted (s : OptionsPortfolio α) (o : Option α) :
    ((addOption s o).optionsList = s.optionsList ++ [o]
        ↔ (0 < o.strikePrice ∧ 0 < o.underlyingPrice ∧ 0 < o.daysToExpiry
            ∧ (o.type = "call" ∨ o.type = "put")
            ∧ (o.position = "long" ∨ o.position = "short")))
      ∧ (o.accepted ∨ addOption s o = s)
      ∧ getOptionsList (addOption (OptionsPortfolio.new : OptionsPortfolio ℚ) invalidOption)
          = [] := by
  refine ⟨?_, ?_, ?_⟩
  · constructor
    · intro h
      by_contra hc
      rw [addOption_of_not_accepted s o hc] at h
      have hlen := congrArg List.length h
      simp at hlen
    · intro h
      rw [addOption_of_accepted s o h]
  · by_cases h : o.accepted
    · exact Or.inl h
    · exact Or.inr (addOption_of_not_accepted s o h)
  · rw [addOption_of_not_accepted _ _ invalidOption_not_accepted]
    rfl

/-- C19: after `addOption` has been called, on a freshly constructed price-difference
portfolio, for each option of a sequence, `optionsList` is the subsequence of the accepted
options in insertion order and `calculateVariance()` is the sum over them of
`(underlyingPrice - strikePrice)^2`, whatever their type and position.  The two options of
`testVarianceCalculation` give `20000` and a list of length `2`. -/
theorem calculateVariance_addOptions (options : List (Option α)) :
    getOptionsList (addOptions OptionsPortfolio.new options)
        = options.filter (fun o => decide o.accepted)
      ∧ calculateVariance (addOptions OptionsPortfolio.new options)
        = ((options.filter (fun o => decide o.accepted)).map fun o =>
            (o.underlyingPrice - (o.strikePrice : α)) ^ 2).sum
      ∧ calculateVariance
          (addOptions (OptionsPortfolio.new : OptionsPortfolio ℚ) [callOption, putOption])
        = 20000
      ∧ (getOptionsList
          (addOptions (OptionsPortfolio.new : OptionsPortfolio ℚ) [callOption, putOption])).length
        = 2 := by
  have hfilter : [callOption, putOption].filter (fun o => decide o.accepted)
      = [callOption, putOption] := by
    simp [List.filter_cons, callOption_accepted, putOption_accepted]
  refine ⟨?_, ?_, ?_, ?_⟩
  · rw [addOptions_eq]
    simp [getOptionsList, OptionsPortfolio.new]
  · rw [addOptions_eq]
    simp [calculateVariance, OptionsPortfolio.new]
  · rw [addOptions_eq, hfilter]
    simp only [calculateVariance, OptionsPortfolio.new, callOption, putOption]
    norm_num
  · rw [addOptions_eq, hfilter]
    simp [getOptionsList, OptionsPortfolio.new]

end PortfolioFacts

end PriceModel
